import Mathlib

/-!
Verification of the klendathu orchestrator core against its specification.

The development shallowly embeds the relevant parts of the source:

* the result serializer of packages/klendathu/src/vm-executor.ts;
* the cache-key derivation of the cache module (unnamed/part_009);
* the replay code generator of src/src/transcript-codegen.ts and the
  cache-hit control flow of src/src/implement.ts;
* the sandboxed evaluator (packages/klendathu/src/vm-executor.ts), the
  in-process tool surface (src/src/mcp-server.ts) and the request
  lifecycle of src/src/implement.ts and the UDS variant (unnamed/part_004).

JavaScript code strings issued by the agent are modelled by a small
straight-line command language that captures exactly the effects the
claims are about: reads/writes of the shared vars and context objects,
sloppy creation of bindings in the active VM context, console calls and
thrown exceptions.
-/

namespace Klendathu

/-! ### Serialization (packages/klendathu/src/vm-executor.ts, serializeValue) -/

mutual

/-- JavaScript values as seen by the serializer.  Arrays and plain objects
carry their elements / own-enumerable entries (Object.entries ignores the
prototype chain, so prototype methods are simply not part of an obj node).
An Error instance is a dedicated constructor because serializeValue tests
instanceof Error before the generic object case; its stack is a String or
undefined.  Functions and primitives reach the final fall-through. -/
inductive JVal where
  | bool (b : Bool)
  | num (n : Int)
  | str (s : String)
  | null
  | undef
  | func (id : String)
  | jerror (name message : String) (stack : Option String)
  | arr (elems : JList)
  | obj (entries : JEntries)

inductive JList where
  | nil
  | cons (hd : JVal) (tl : JList)

inductive JEntries where
  | nil
  | cons (key : String) (val : JVal) (tl : JEntries)

end

mutual

/-- Embedding of serializeValue (vm-executor.ts lines 5-25): an Error
instance becomes the tagged record with __error, name, message and stack;
arrays recurse element-wise; non-null objects recurse over their own
enumerable entries; everything else is returned unchanged. -/
def serializeValue : JVal → JVal
  | .jerror name message stack =>
      .obj (.cons "__error" (.bool true)
        (.cons "name" (.str name)
          (.cons "message" (.str message)
            (.cons "stack" (match stack with | some s => .str s | none => .undef) .nil))))
  | .arr elems => .arr (serializeList elems)
  | .obj entries => .obj (serializeEntries entries)
  | v => v

def serializeList : JList → JList
  | .nil => .nil
  | .cons hd tl => .cons (serializeValue hd) (serializeList tl)

def serializeEntries : JEntries → JEntries
  | .nil => .nil
  | .cons k v tl => .cons k (serializeValue v) (serializeEntries tl)

end

/-- Generic element-wise map over a JList, used to state that serialization
of arrays is exactly element-wise recursion. -/
def mapJList (f : JVal → JVal) : JList → JList
  | .nil => .nil
  | .cons hd tl => .cons (f hd) (mapJList f tl)

/-- Generic value-wise map over object entries, keys untouched. -/
def mapJEntries (f : JVal → JVal) : JEntries → JEntries
  | .nil => .nil
  | .cons k v tl => .cons k (f v) (mapJEntries f tl)

/-- Keys of an object, in enumeration order. -/
def keysOf : JEntries → List String
  | .nil => []
  | .cons k _ tl => k :: keysOf tl

/-- First binding of a key among an object's entries. -/
def lookupEntry : JEntries → String → Option JVal
  | .nil, _ => none
  | .cons k v tl, key => if k = key then some v else lookupEntry tl key

/-! ### Cache keying (unnamed/part_009: slugify / getCacheKey) -/

/-- Characters the slug keeps: the regex class [a-z0-9]. -/
def isSlugChar (c : Char) : Bool :=
  ('a' ≤ c && c ≤ 'z') || ('0' ≤ c && c ≤ '9')

/-- Run-collapse worker: inRun says whether the scan is inside a run of
dropped characters whose underscore has already been emitted. -/
def collapseRunsAux : Bool → List Char → List Char
  | _, [] => []
  | inRun, c :: rest =>
      if isSlugChar c then c :: collapseRunsAux false rest
      else if inRun then collapseRunsAux true rest
      else '_' :: collapseRunsAux true rest

/-- Replacement of every maximal run of non-[a-z0-9] characters by a single
underscore, the effect of .replace(/[^a-z0-9]+/g, "_"). -/
def collapseRuns (l : List Char) : List Char :=
  collapseRunsAux false l

/-- Removal of leading and trailing underscores, the effect of
.replace(/^_+|_+$/g, ""). -/
def stripUnderscores (l : List Char) : List Char :=
  (((l.dropWhile (fun c => c = '_')).reverse.dropWhile (fun c => c = '_')).reverse)

/-- Trimming of leading and trailing whitespace, the effect of
String.prototype.trim (they agree on the ASCII texts considered here). -/
def jsTrim (l : List Char) : List Char :=
  ((l.dropWhile Char.isWhitespace).reverse.dropWhile Char.isWhitespace).reverse

/-- Embedding of slugify (part_009 lines 24-31) over the character
sequence of the string: lowercase, whitespace-trim, take the first 50
characters, collapse non-alphanumeric runs to underscores, strip
underscores at either end.  JS String.prototype.toLowerCase agrees with
Char.toLower on the ASCII texts considered here. -/
def slugify (text : String) : String :=
  String.mk (stripUnderscores (collapseRuns ((jsTrim (text.data.map Char.toLower)).take 50)))

/-- Embedding of getCacheKey (part_009 lines 33-38).  The hex SHA-256 digest
is abstracted as the parameter hash, applied to the same combined string
the source hashes; the schema argument is its JSON serialization. -/
def getCacheKey (hash : String → String) (prompt schemaJson : String) : String :=
  slugify prompt ++ "_" ++ hash (prompt ++ ":::" ++ schemaJson)

/-- Slug as the specification words it (spec.md §3 CacheKey): the
instruction is lowercased, non-alphanumeric runs are collapsed to
underscores and the ends are trimmed; truncation to 50 characters is
applied afterwards, to the finished slug. -/
def slugifySpecOrder (text : String) : String :=
  String.mk ((stripUnderscores (collapseRuns (text.data.map Char.toLower))).take 50)

/-- Cache key as claim C8 / spec.md §3 word it:
slug(instruction)[:50] + "_" + sha256(instruction + ":::" + json(schema)). -/
def getCacheKeySpec (hash : String → String) (prompt schemaJson : String) : String :=
  slugifySpecOrder prompt ++ "_" ++ hash (prompt ++ ":::" ++ schemaJson)

/-- Alternative collapse of non-alphanumeric runs, written as a right fold:
a kept character is prepended, a dropped character contributes an
underscore unless one is already in front.  Used to state the amended C8
independently of the recursion in collapseRuns. -/
def collapseFold (l : List Char) : List Char :=
  l.foldr (fun c acc =>
    if isSlugChar c then c :: acc
    else if acc.head? = some '_' then acc else '_' :: acc) []

/-- Slug as amended claim C8 words it: lowercase, whitespace-trim, truncate
to the first 50 characters, then collapse non-alphanumeric runs to single
underscores and strip underscores at either end. -/
def slugifyAmended (text : String) : String :=
  String.mk (stripUnderscores (collapseFold ((jsTrim (text.data.map Char.toLower)).take 50)))

/-- Cache key as amended claim C8 words it. -/
def getCacheKeyAmended (hash : String → String) (prompt schemaJson : String) : String :=
  slugifyAmended prompt ++ "_" ++ hash (prompt ++ ":::" ++ schemaJson)

/-! ### Transcript replay codegen (src/src/transcript-codegen.ts) and the
cache-hit flow of src/src/implement.ts -/

/-- One recorded tool call as consumed by the replay code generator: the
tool name, the recorded code string and the error flag of its recorded
ToolResult (none models a transcript entry whose result field is absent;
the generator only reads result?.error). -/
structure TCall where
  tool : String
  code : String
  resultError : Option Bool
deriving DecidableEq

/-- A cached transcript as consulted by loadCachedTranscript: its success
flag and its recorded calls. -/
structure CachedTranscript where
  success : Bool
  calls : List TCall
deriving DecidableEq

/-- The filter of transcript-codegen.ts line 13-16: a call participates in
replay when its recorded result is not flagged as an error. -/
def isOkCall (c : TCall) : Bool :=
  c.resultError ≠ some true

/-- Splitting of a call list at its LAST set_result entry: the result is
the list of calls strictly before that entry together with the entry
itself.  This models lines 22-32 of transcript-codegen.ts: the source
locates the last set_result via [...calls].reverse().find(...) and then
takes its position with indexOf on the found object reference, which is
that element's own index since JSON.parse yields distinct objects. -/
def lastSetResultSplit : List TCall → Option (List TCall × TCall)
  | [] => none
  | c :: rest =>
      match lastSetResultSplit rest with
      | some (pre, sr) => some (c :: pre, sr)
      | none => if c.tool = "set_result" then some ([], c) else none

/-- Assembly of the combined async IIFE string, exactly the concatenations
of transcript-codegen.ts lines 38-54 (extractFunctionBody is computed there
but its result is discarded, so it has no effect on the output). -/
def combineCode (evalCodes : List String) (finalCode : String) : String :=
  "(async () => \x7b"
    ++ String.join (evalCodes.map (fun c => "\n  // eval call\n  await (" ++ c ++ ")();\n"))
    ++ "\n  // final set_result\n  return await (" ++ finalCode ++ ")();\n"
    ++ "\n\x7d)"

/-- Embedding of generateCombinedCode (transcript-codegen.ts lines 11-58):
filter to calls whose recorded result is not an error, fail if none remain,
locate the last successful set_result (fail if there is none), inline the
code of the successful eval calls that precede it, then the set_result
code, into one async function expression. -/
def generateCombinedCode (calls : List TCall) : Except String String :=
  let successfulCalls := calls.filter isOkCall
  if successfulCalls = [] then .error "No successful calls in transcript"
  else
    match lastSetResultSplit successfulCalls with
    | none => .error "No successful set_result call in transcript"
    | some (pre, lastSetResult) =>
        .ok (combineCode ((pre.filter (fun c => c.tool = "eval")).map TCall.code)
              lastSetResult.code)

/-- Combined code as claim C6 words it: the code of EVERY successful eval
call of the transcript is inlined (wherever it occurs), followed by the
last successful set_result.  Differs from the source exactly when a
successful eval call follows the last successful set_result. -/
def generateCombinedCodeSpec (calls : List TCall) : Except String String :=
  let successfulCalls := calls.filter isOkCall
  if successfulCalls = [] then .error "No successful calls in transcript"
  else
    match lastSetResultSplit successfulCalls with
    | none => .error "No successful set_result call in transcript"
    | some (_, lastSetResult) =>
        .ok (combineCode ((successfulCalls.filter (fun c => c.tool = "eval")).map TCall.code)
              lastSetResult.code)

/-- Combined code as the amended claim C6 words it, computed by walking the
successful calls from the right: drop the (reversed) tail up to the last
set_result, which is the final call; the evals inlined are those among the
remaining (earlier) calls. -/
def generateCombinedCodeAmended (calls : List TCall) : Except String String :=
  let successfulCalls := calls.filter isOkCall
  if successfulCalls = [] then .error "No successful calls in transcript"
  else
    match successfulCalls.reverse.dropWhile (fun c => c.tool ≠ "set_result") with
    | [] => .error "No successful set_result call in transcript"
    | sr :: earlierRev =>
        .ok (combineCode ((earlierRev.reverse.filter (fun c => c.tool = "eval")).map TCall.code)
              sr.code)

/-- Filtering of loadCachedTranscript (part_009 lines 45-65): a transcript
is used only when it loads and its success flag is set. -/
def loadFiltered : Option CachedTranscript → Option (List TCall)
  | none => none
  | some t => if t.success then some t.calls else none

/-- Cache-hit portion of implement (src/src/implement.ts lines 56-76).
When a cached transcript is available, the combined code is generated
(outside any try/catch: a failure of the generator propagates to the
caller) and run through the fresh evaluator's setResult; an exception from
that call is swallowed and execution falls through to the live path, which
builds another fresh evaluator.  The replay executor and the live path are
abstracted as the parameters replayExec and live; the replay executor's
partially mutated vars are private to it, so the fallback discards them. -/
def implementCached (cached : Option CachedTranscript)
    (replayExec : String → Except String JVal) (live : Except String JVal) :
    Except String JVal :=
  match loadFiltered cached with
  | none => live
  | some calls =>
      match generateCombinedCode calls with
      | .error e => .error e
      | .ok combined =>
          match replayExec combined with
          | .ok v => .ok v
          | .error _ => live

/-! ### The sandboxed evaluator (packages/klendathu/src/vm-executor.ts) -/

/-- Flat values flowing through the evaluator model.  serializeValue acts
as the identity on them (C7 proves primitives pass through unchanged), so
its application inside the executor is not written out below. -/
inductive Val where
  | num (n : Int)
  | str (s : String)
  | bool (b : Bool)
  | null
  | undef
deriving DecidableEq

/-- A JavaScript object used as an environment: ordered own properties. -/
abbrev Env := List (String × Val)

/-- Property read; an absent key is not an error at property level. -/
def envLookup : Env → String → Option Val
  | [], _ => none
  | (k, v) :: rest, key => if k = key then some v else envLookup rest key

/-- Property write: update in place when present, append otherwise. -/
def envSet : Env → String → Val → Env
  | [], key, v => [(key, v)]
  | (k, w) :: rest, key, v =>
      if k = key then (k, v) :: rest else (k, w) :: envSet rest key v

/-- Expressions of the agent-code model.  varRead/ctxRead are property
reads of the vars and context objects bound in every execution scope
(missing properties read as undefined); globalRead is a bare identifier
resolved against the bindings sloppy assignments created in the active VM
context (a missing one throws a ReferenceError); throwJs is any throwing
expression. -/
inductive Expr where
  | lit (v : Val)
  | varRead (k : String)
  | ctxRead (k : String)
  | globalRead (k : String)
  | throwJs (msg : String)
deriving DecidableEq

/-- Statements of the agent-code model: property writes to vars, sloppy
creation/update of a binding in the active VM context, a console method
call (resolving the bare identifier console), and a bare expression. -/
inductive Stmt where
  | varWrite (k : String) (e : Expr)
  | globalWrite (k : String) (e : Expr)
  | consoleCall (level : String) (e : Expr)
  | exprStmt (e : Expr)
deriving DecidableEq

/-- An agent-supplied function body: statements run in order, then the
return expression produces the value of the call. -/
structure Code where
  body : List Stmt
  ret : Expr
deriving DecidableEq

/-- One captured console invocation: level and (serialized) argument. -/
abbrev ConsoleEntry := String × Val

/-- Mutable state while a code string runs: the shared vars object, the
bindings of the active VM context, and the console captures so far. -/
structure RunSt where
  vars : Env
  globals : Env
  logs : List ConsoleEntry
deriving DecidableEq

/-- Expression evaluation; expressions do not mutate state. -/
def evalExpr (ctx : Env) (st : RunSt) : Expr → Except String Val
  | .lit v => .ok v
  | .varRead k => .ok ((envLookup st.vars k).getD .undef)
  | .ctxRead k => .ok ((envLookup ctx k).getD .undef)
  | .globalRead k =>
      match envLookup st.globals k with
      | some v => .ok v
      | none => .error ("ReferenceError: " ++ k ++ " is not defined")
  | .throwJs msg => .error msg

/-- One statement.  The consoleBound flag says whether the scope binds a
console object: eval's per-call context installs the capturing shim,
set_result's shared context does not, so there the bare identifier throws
before the argument is even evaluated. -/
def runStmt (consoleBound : Bool) (ctx : Env) (st : RunSt) : Stmt → Except String RunSt
  | .varWrite k e => do
      let v ← evalExpr ctx st e
      pure { st with vars := envSet st.vars k v }
  | .globalWrite k e => do
      let v ← evalExpr ctx st e
      pure { st with globals := envSet st.globals k v }
  | .consoleCall level e =>
      if consoleBound then do
        let v ← evalExpr ctx st e
        pure { st with logs := st.logs ++ [(level, v)] }
      else .error "ReferenceError: console is not defined"
  | .exprStmt e => do
      let _ ← evalExpr ctx st e
      pure st

/-- Statements in order.  A throw stops execution but the mutations made
so far stay (vars is a shared live object), so the state at the point of
the throw is returned alongside the error. -/
def runStmts (consoleBound : Bool) (ctx : Env) : List Stmt → RunSt → RunSt × Option String
  | [], st => (st, none)
  | s :: rest, st =>
      match runStmt consoleBound ctx st s with
      | .ok st' => runStmts consoleBound ctx rest st'
      | .error m => (st, some m)

deriving instance DecidableEq for Except

/-- Outcome of running one code string: the returned value or the thrown
error, plus the final vars, the final bindings of the active VM context,
and the console captures. -/
structure ExecOut where
  result : Except String Val
  vars : Env
  globals : Env
  logs : List ConsoleEntry
deriving DecidableEq

/-- Full execution of a code string against (context, vars) with the given
VM-context bindings, modelling (code)() being run and awaited. -/
def execCode (consoleBound : Bool) (ctx : Env) (c : Code) (vars globals : Env) : ExecOut :=
  let (st, err) := runStmts consoleBound ctx c.body { vars := vars, globals := globals, logs := [] }
  match err with
  | some m => { result := .error m, vars := st.vars, globals := st.globals, logs := st.logs }
  | none =>
      match evalExpr ctx st c.ret with
      | .ok v => { result := .ok v, vars := st.vars, globals := st.globals, logs := st.logs }
      | .error m => { result := .error m, vars := st.vars, globals := st.globals, logs := st.logs }

/-- The single-shot completion promise. -/
inductive PromiseState (α : Type) where
  | pending
  | fulfilled (v : α)
  | rejected (msg : String)
deriving DecidableEq

/-- Calling the stored resolve function: a no-op once settled. -/
def resolveP {α : Type} (p : PromiseState α) (v : α) : PromiseState α :=
  match p with
  | .pending => .fulfilled v
  | _ => p

/-- Calling the stored reject function: a no-op once settled. -/
def rejectP {α : Type} (p : PromiseState α) (msg : String) : PromiseState α :=
  match p with
  | .pending => .rejected msg
  | _ => p

/-- The arguments createVmExecutor closes over.  schemaCheck models
schema.safeParse: on failure it carries the issues already joined as
"path: message; ...".  validate is the caller-supplied validator of
ImplementOptions.

Modelled from the spec: the validator handling lives in
src/src/vm-executor.ts, which is not under src/ (its caller
src/src/implement.ts line 63 passes options.validate as a third argument,
and packages/klendathu/src/vm-executor.ts is the same executor without
that parameter).  Per spec §4.1, after schema validation set_result
invokes the caller-supplied validator when present and a throw from it
propagates as failure.  With validate = none the definition below is
exactly packages/klendathu/src/vm-executor.ts. -/
structure VmCfg where
  context : Env
  schemaCheck : Val → Except String Unit
  validate : Option (Val → Except String Unit)

/-- Per-request executor state: the shared vars object, the bindings of
the persistent vmContext created once in createVmExecutor (used by every
setResult call), and the completion promise. -/
structure VmState where
  vars : Env
  srGlobals : Env
  completion : PromiseState Val
deriving DecidableEq

/-- The value eval hands back: the serialized result, and the console
captures (the source attaches the console field only when the list is
nonempty; the empty list models its absence). -/
structure EvalOut where
  result : Val
  console : List ConsoleEntry
deriving DecidableEq

/-- Embedding of eval (vm-executor.ts lines 59-94): the code runs in a
freshly created VM context binding context, vars, globalThis and the
capturing console shim; bindings created by the code in that context are
discarded with it, while vars mutations persist (also past a throw, which
propagates to the tool surface). -/
def vmEval (cfg : VmCfg) (c : Code) (s : VmState) : Except String EvalOut × VmState :=
  let out := execCode true cfg.context c s.vars []
  match out.result with
  | .ok v => (.ok { result := v, console := out.logs }, { s with vars := out.vars })
  | .error m => (.error m, { s with vars := out.vars })

/-- Embedding of setResult (vm-executor.ts lines 96-125) with the
spec-modelled validator (see VmCfg): the code runs in the persistent
vmContext (no console binding, its sloppy bindings survive to later
setResult calls), the serialized value is schema-checked (failure throws
"Validation failed: ..."), the validator runs when present, and on success
the completion promise is resolved with the serialized value, which is
also returned.  Every throw propagates to the tool surface and leaves the
completion promise untouched. -/
def vmSetResult (cfg : VmCfg) (c : Code) (s : VmState) : Except String Val × VmState :=
  let out := execCode false cfg.context c s.vars s.srGlobals
  let s' : VmState := { s with vars := out.vars, srGlobals := out.globals }
  match out.result with
  | .error m => (.error m, s')
  | .ok v =>
      match cfg.schemaCheck v with
      | .error issues => (.error ("Validation failed: " ++ issues), s')
      | .ok _ =>
          match cfg.validate with
          | some f =>
              match f v with
              | .error m => (.error m, s')
              | .ok _ => (.ok v, { s' with completion := resolveP s'.completion v })
          | none => (.ok v, { s' with completion := resolveP s'.completion v })

/-- Embedding of setBailError (vm-executor.ts lines 127-131): reject the
completion promise with the prefixed message (a no-op once settled). -/
def vmSetBail (msg : String) (s : VmState) : VmState :=
  { s with completion := rejectP s.completion ("Agent could not complete the task: " ++ msg) }

/-! ### The in-process tool surface (src/src/mcp-server.ts) -/

/-- Compact rendering of a value, standing for JSON.stringify (the claims
do not depend on the text, only on which branch produced it). -/
def renderVal : Val → String
  | .num n => toString n
  | .str s => "\"" ++ s ++ "\""
  | .bool b => cond b "true" "false"
  | .null => "null"
  | .undef => "undefined"

/-- Rendering of eval's response body, standing for
JSON.stringify(data, null, 2). -/
def renderEvalOut (out : EvalOut) : String :=
  "\x7b result: " ++ renderVal out.result
    ++ String.join (out.console.map (fun e => ", console " ++ e.1 ++ ": " ++ renderVal e.2))
    ++ " \x7d"

/-- The data slot of a recorded ToolResult: eval records its whole
response body, set_result records the validated value. -/
inductive TData where
  | evalData (out : EvalOut)
  | resData (v : Val)
deriving DecidableEq

/-- The ToolResult union of src/src/transcript.ts / mcp-server.ts. -/
inductive ToolResult where
  | ok (data : TData)
  | err (message : String) (stack : Option String)
deriving DecidableEq

/-- One invocation of the user-supplied onToolCall callback:
(tool, code, ToolResult). -/
abbrev CbRec := String × Code × ToolResult

/-- A tool's response to the agent: one textual content block and the
isError flag. -/
structure ToolResp where
  text : String
  isError : Bool
deriving DecidableEq

/-- Everything one tool invocation produces: the response to the agent,
the onToolCall callback invocations it performed (in order), the executor
state afterwards, and the value passed to onSetResult, if any. -/
structure ToolStep where
  resp : ToolResp
  cbs : List CbRec
  vm : VmState
  computed : Option Val

/-- Embedding of the eval tool (mcp-server.ts lines 17-86).  On success
the response body carries the serialized output and onToolCall is invoked
once with the Ok result.  The data.error branches of the source are
unreachable here: the in-process executor's eval never returns an
error-flagged body, it throws, which lands in the catch clause — and that
clause returns the error text without invoking onToolCall. -/
def evalTool (cfg : VmCfg) (c : Code) (s : VmState) : ToolStep :=
  match vmEval cfg c s with
  | (.ok out, s') =>
      { resp := { text := renderEvalOut out, isError := false },
        cbs := [("eval", c, .ok (.evalData out))],
        vm := s', computed := none }
  | (.error m, s') =>
      { resp := { text := "Error: " ++ m, isError := true },
        cbs := [], vm := s', computed := none }

/-- Embedding of the set_result tool (mcp-server.ts lines 89-141).  On
success onToolCall is invoked once with the Ok result, onSetResult stores
the value, and the short ack is returned.  A throw from setResult lands in
the catch clause, which returns the error text flagged isError without
invoking onToolCall. -/
def setResultTool (cfg : VmCfg) (c : Code) (s : VmState) : ToolStep :=
  match vmSetResult cfg c s with
  | (.ok v, s') =>
      { resp := { text := "Result computed", isError := false },
        cbs := [("set_result", c, .ok (.resData v))],
        vm := s', computed := some v }
  | (.error m, s') =>
      { resp := { text := "Error: " ++ m, isError := true },
        cbs := [], vm := s', computed := none }

/-- Embedding of the bail tool (mcp-server.ts lines 144-164): reject the
completion promise and return the failure text flagged isError.  The
handler never invokes onToolCall. -/
def bailTool (msg : String) (s : VmState) : ToolStep :=
  { resp := { text := "Implementation failed: " ++ msg, isError := true },
    cbs := [], vm := vmSetBail msg s, computed := none }

/-! ### Request lifecycle (src/src/implement.ts and unnamed/part_004) -/

/-- A tool invocation issued by the agent during one request. -/
inductive AgentReq where
  | evalR (c : Code)
  | setResultR (c : Code)
  | bailR (msg : String)

/-- Orchestrator state during the live loop: executor state, the
transcript as appended to by the onToolCall callback
(implement.ts line 104: onToolCall records into the Transcript), and
computedResult as stored by onSetResult. -/
structure OrchSt where
  vm : VmState
  transcript : List CbRec
  computed : Option Val

/-- Dispatch of one agent tool invocation through the in-process MCP
server, folding the callback invocations into the transcript and keeping
the latest onSetResult value. -/
def orchStep (cfg : VmCfg) (s : OrchSt) : AgentReq → OrchSt
  | .evalR c =>
      let t := evalTool cfg c s.vm
      { vm := t.vm, transcript := s.transcript ++ t.cbs,
        computed := t.computed.orElse (fun _ => s.computed) }
  | .setResultR c =>
      let t := setResultTool cfg c s.vm
      { vm := t.vm, transcript := s.transcript ++ t.cbs,
        computed := t.computed.orElse (fun _ => s.computed) }
  | .bailR msg =>
      let t := bailTool msg s.vm
      { vm := t.vm, transcript := s.transcript ++ t.cbs,
        computed := t.computed.orElse (fun _ => s.computed) }

/-- Fresh executor state, as built by createVmExecutor: empty vars object,
no sloppy bindings yet in the persistent vmContext, pending completion. -/
def initVmState : VmState :=
  { vars := [], srGlobals := [], completion := .pending }

/-- Fresh request state: fresh executor, empty transcript. -/
def initOrchSt : OrchSt :=
  { vm := initVmState, transcript := [], computed := none }

/-- The live loop over the agent's tool invocations. -/
def runOrch (cfg : VmCfg) (reqs : List AgentReq) : OrchSt :=
  reqs.foldl (orchStep cfg) initOrchSt

/-- Caller-visible outcome of the in-process implement
(src/src/implement.ts lines 109-153) once the agent has issued the given
tool invocations and its message stream has ended: the orchestrator
awaits the completion promise as it stands — pending means the caller's
promise never settles (there is no failsafe on this path). -/
def implementLive (cfg : VmCfg) (reqs : List AgentReq) : PromiseState Val :=
  (runOrch cfg reqs).vm.completion

/-- One agent tool invocation of the UDS variant at the executor level
(the tool surface of that variant differs only in recording, which does
not affect the completion promise). -/
def udsStep (cfg : VmCfg) (vm : VmState) : AgentReq → VmState
  | .evalR c => (vmEval cfg c vm).2
  | .setResultR c => (vmSetResult cfg c vm).2
  | .bailR msg => vmSetBail msg vm

/-- Caller-visible outcome of the UDS-variant implement
(unnamed/part_004 lines 84-104): after the agent subprocess exits, a
nonzero exit code triggers setBailError("CLI process exited with code N");
then the completion promise is awaited as it stands. -/
def implementUds (cfg : VmCfg) (reqs : List AgentReq) (exitCode : Int) : PromiseState Val :=
  let vm := reqs.foldl (udsStep cfg) initVmState
  let vm' := if exitCode ≠ 0 then vmSetBail ("CLI process exited with code " ++ toString exitCode) vm else vm
  vm'.completion

/-! ### Scope bookkeeping for the state-persistence claims -/

/-- Which executor entry point a call used. -/
inductive CallKind where
  | evalC
  | setResC
deriving DecidableEq

/-- Snapshot of one executor call for the isolation/persistence claims:
the vars object it started from and ended with, the VM-context bindings
its code executed against, and the persistent set_result context before
and after. -/
structure CallRec where
  kind : CallKind
  varsIn : Env
  globalsIn : Env
  varsOut : Env
  srIn : Env
  srOut : Env

/-- One traced executor call.  The record fields are read off the actual
vmEval / vmSetResult transitions: eval executes against a freshly created
context (globalsIn = []), set_result against the persistent one. -/
def traceStep (cfg : VmCfg) (vm : VmState) : CallKind × Code → CallRec × VmState
  | (.evalC, c) =>
      let r := vmEval cfg c vm
      ({ kind := .evalC, varsIn := vm.vars, globalsIn := [],
         varsOut := r.2.vars, srIn := vm.srGlobals, srOut := r.2.srGlobals }, r.2)
  | (.setResC, c) =>
      let r := vmSetResult cfg c vm
      ({ kind := .setResC, varsIn := vm.vars, globalsIn := vm.srGlobals,
         varsOut := r.2.vars, srIn := vm.srGlobals, srOut := r.2.srGlobals }, r.2)

/-- Trace of a whole call sequence. -/
def runTrace (cfg : VmCfg) : List (CallKind × Code) → VmState → List CallRec
  | [], _ => []
  | c :: rest, vm =>
      let (rec, vm') := traceStep cfg vm c
      rec :: runTrace cfg rest vm'

/-- Chaining of the vars object through consecutive calls: each call
starts from the vars the previous call ended with. -/
def varsChained : Env → List CallRec → Prop
  | _, [] => True
  | v, r :: rest => r.varsIn = v ∧ varsChained r.varsOut rest

/-- Chaining of the persistent set_result context through consecutive
calls. -/
def srChained : Env → List CallRec → Prop
  | _, [] => True
  | g, r :: rest => r.srIn = g ∧ srChained r.srOut rest

/-- Whether a statement is a console method call. -/
def isConsoleStmt : Stmt → Bool
  | .consoleCall _ _ => true
  | _ => false

/-- Syntactic test for a reference to the bare identifier console. -/
def usesConsole (c : Code) : Bool :=
  c.body.any isConsoleStmt

/-- Whether an Except value is on the error side. -/
def exceptIsError {α β : Type} : Except α β → Bool
  | .error _ => true
  | .ok _ => false

/-! ### Concrete instances used by witnesses and counterexamples -/

/-- Executor configuration with an empty context, a schema accepting
everything, and no caller validator. -/
def cfg0 : VmCfg :=
  { context := [], schemaCheck := fun _ => .ok (), validate := none }

/-- Schema check for the shape of spec scenario 3, a single non-negative
number: z.object with n: z.number().min(0), with the value itself standing
for the n field. -/
def schemaPos : Val → Except String Unit := fun v =>
  match v with
  | .num n => if 0 ≤ n then .ok () else .error "n: Number must be greater than or equal to 0"
  | _ => .error "n: Expected number, received something else"

/-- Executor configuration with the non-negative-number schema. -/
def cfgPos : VmCfg :=
  { context := [], schemaCheck := schemaPos, validate := none }

/-- Executor configuration with an accept-everything schema and a
caller-supplied validator that always throws. -/
def cfgValReject : VmCfg :=
  { context := [], schemaCheck := fun _ => .ok (),
    validate := some (fun _ => .error "validator rejected") }

/-- Agent code async () => (-1): returns -1, mutates nothing. -/
def codeNegOne : Code := { body := [], ret := .lit (.num (-1)) }

/-- Agent code async () => (1). -/
def codeOne : Code := { body := [], ret := .lit (.num 1) }

/-- Agent code async () => \x7b vars.x = 10; return vars.x; \x7d. -/
def codeVarsX : Code :=
  { body := [.varWrite "x" (.lit (.num 10))], ret := .varRead "x" }

/-- Agent code async () => \x7b console.log("hi"); return null; \x7d. -/
def codeConsole : Code :=
  { body := [.consoleCall "log" (.lit (.str "hi"))], ret := .lit .null }

/-- Call sequence used by the C9 witness: an eval that writes vars.x, then
a set_result. -/
def csSample : List (CallKind × Code) :=
  [(.evalC, codeVarsX), (.setResC, codeOne)]

/-- Transcript whose only successful call is a set_result followed by a
successful eval: the input on which the source and claim C6 disagree. -/
def callsEvalAfter : List TCall :=
  [ { tool := "set_result", code := "async () => (1)", resultError := some false },
    { tool := "eval", code := "async () => 2", resultError := some false } ]

/-- A success=true cached transcript with no recorded calls at all: the
input on which replay failure escapes to the caller. -/
def emptySuccessTranscript : CachedTranscript :=
  { success := true, calls := [] }

/-- Instruction exceeding 50 characters whose collapsible whitespace run
sits inside the first 50: "a", two spaces, "b", then sixty times "c". -/
def longInstr : String :=
  "a  b" ++ String.mk (List.replicate 60 'c')

/-! ## Theorems -/

/-! ### Serialization lemmas and claim C7 -/

theorem serializeList_eq_map : ∀ l : JList, serializeList l = mapJList serializeValue l
  | .nil => rfl
  | .cons hd tl => by
      simp only [serializeList, mapJList]
      rw [serializeList_eq_map tl]

theorem serializeEntries_eq_map : ∀ e : JEntries, serializeEntries e = mapJEntries serializeValue e
  | .nil => rfl
  | .cons k v tl => by
      simp only [serializeEntries, mapJEntries]
      rw [serializeEntries_eq_map tl]

theorem keysOf_mapJEntries (f : JVal → JVal) : ∀ e : JEntries, keysOf (mapJEntries f e) = keysOf e
  | .nil => rfl
  | .cons k v tl => by
      simp only [mapJEntries, keysOf]
      rw [keysOf_mapJEntries f tl]

/-- C7: every value leaving the sandbox is serialized so that an Error
instance becomes the object with exactly the four fields __error (true),
name, message and stack, all present; arrays are mapped element-wise
recursively; non-null non-error objects are mapped over their own
enumerable entries recursively with the keys preserved (prototype methods
never appear among the entries); and every other value (primitives,
null/undefined, functions) passes through unchanged. -/
theorem c7_serialize_shapes :
    (∀ (name message : String) (stack : Option String),
      serializeValue (.jerror name message stack) =
        .obj (.cons "__error" (.bool true)
          (.cons "name" (.str name)
            (.cons "message" (.str message)
              (.cons "stack" (match stack with | some s => .str s | none => .undef) .nil))))
      ∧ (match serializeValue (.jerror name message stack) with
         | .obj entries =>
             lookupEntry entries "__error" = some (.bool true)
             ∧ lookupEntry entries "name" = some (.str name)
             ∧ lookupEntry entries "message" = some (.str message)
             ∧ (lookupEntry entries "stack").isSome = true
         | _ => False))
    ∧ (∀ l : JList, serializeValue (.arr l) = .arr (mapJList serializeValue l))
    ∧ (∀ e : JEntries, serializeValue (.obj e) = .obj (mapJEntries serializeValue e)
        ∧ (match serializeValue (.obj e) with
           | .obj entries => keysOf entries = keysOf e
           | _ => False))
    ∧ (∀ b, serializeValue (.bool b) = .bool b)
    ∧ (∀ n, serializeValue (.num n) = .num n)
    ∧ (∀ s, serializeValue (.str s) = .str s)
    ∧ serializeValue .null = .null
    ∧ serializeValue .undef = .undef
    ∧ (∀ id, serializeValue (.func id) = .func id) := by
  refine ⟨fun name message stack => ⟨rfl, ?_⟩, fun l => ?_, fun e => ?_,
    fun b => rfl, fun n => rfl, fun s => rfl, rfl, rfl, fun id => rfl⟩
  · exact ⟨rfl, rfl, rfl, by cases stack <;> rfl⟩
  · show JVal.arr (serializeList l) = JVal.arr (mapJList serializeValue l)
    rw [serializeList_eq_map]
  · refine ⟨?_, ?_⟩
    · show JVal.obj (serializeEntries e) = JVal.obj (mapJEntries serializeValue e)
      rw [serializeEntries_eq_map]
    · show match JVal.obj (serializeEntries e) with
        | .obj entries => keysOf entries = keysOf e
        | _ => False
      simp only
      rw [serializeEntries_eq_map, keysOf_mapJEntries]

/-! ### Cache-key lemmas and claim C8 -/

theorem collapseRunsAux_eq_fold : ∀ l : List Char,
    collapseRunsAux false l = collapseFold l
    ∧ collapseRunsAux true l =
        (if (collapseFold l).head? = some '_' then (collapseFold l).tail else collapseFold l)
  | [] => by simp [collapseRunsAux, collapseFold]
  | c :: rest => by
      obtain ⟨ih1, ih2⟩ := collapseRunsAux_eq_fold rest
      by_cases hc : isSlugChar c
      · have hfold : collapseFold (c :: rest) = c :: collapseFold rest := by
          simp [collapseFold, hc]
        have hc_ne : ¬ c = '_' := by
          intro h
          rw [h] at hc
          exact absurd hc (by decide)
        refine ⟨?_, ?_⟩
        · simp [collapseRunsAux, hc, ih1, hfold]
        · rw [hfold]
          simp only [collapseRunsAux, hc, if_true, ih1]
          rw [if_neg]
          simp [hc_ne]
      · have hfold : collapseFold (c :: rest) =
            (if (collapseFold rest).head? = some '_' then collapseFold rest
             else '_' :: collapseFold rest) := by
          simp [collapseFold, hc]
        by_cases hh : (collapseFold rest).head? = some '_'
        · obtain ⟨t, ht⟩ : ∃ t, collapseFold rest = '_' :: t := by
            cases hfr : collapseFold rest with
            | nil => rw [hfr] at hh; simp at hh
            | cons a t =>
                rw [hfr] at hh
                simp at hh
                exact ⟨t, by rw [hh]⟩
          refine ⟨?_, ?_⟩
          · simp [collapseRunsAux, hc, ih2, hfold, hh, ht]
          · simp [collapseRunsAux, hc, ih2, hfold, hh, ht]
        · refine ⟨?_, ?_⟩
          · simp [collapseRunsAux, hc, ih2, hfold, hh]
          · simp [collapseRunsAux, hc, ih2, hfold, hh]

theorem collapseRuns_eq_fold (l : List Char) : collapseRuns l = collapseFold l :=
  (collapseRunsAux_eq_fold l).1

theorem slugify_eq_amended (text : String) : slugify text = slugifyAmended text := by
  unfold slugify slugifyAmended
  rw [collapseRuns_eq_fold]

/-- C8 (amended): the cache key is the slug of the instruction followed by
an underscore and the hex SHA-256 digest of instruction + ":::" + the JSON
serialization of the schema, where the slug lowercases the instruction,
trims surrounding whitespace, truncates to the first 50 characters, and
only then collapses non-alphanumeric runs to underscores and strips
underscores at either end (truncation happens before collapsing). -/
theorem c8_cache_key_amended (hash : String → String) (prompt schemaJson : String) :
    getCacheKey hash prompt schemaJson = getCacheKeyAmended hash prompt schemaJson := by
  unfold getCacheKey getCacheKeyAmended
  rw [slugify_eq_amended]

/-- C8 (counterexample): for the 64-character instruction "a  b" + 60 "c"
the key produced by the source differs from slug(instruction)[:50] + "_" +
hash: the source truncates to 50 characters before collapsing the two
spaces, keeping 46 trailing "c"s, while the spec formula collapses first
and keeps 47.  The hash suffix is identical on both sides, so the
difference is independent of the hash function. -/
theorem c8_cache_key_counterexample :
    getCacheKey (fun _ => "") longInstr "\x7b\x7d" ≠
      getCacheKeySpec (fun _ => "") longInstr "\x7b\x7d" := by
  decide

/-! ### Replay codegen lemmas, claim C6 and claim C5 -/

theorem lastSetResultSplit_reverse : ∀ l : List TCall,
    lastSetResultSplit l =
      (match l.reverse.dropWhile (fun c => c.tool ≠ "set_result") with
       | [] => none
       | sr :: restRev => some (restRev.reverse, sr))
  | [] => rfl
  | c :: rest => by
      have ih := lastSetResultSplit_reverse rest
      show (match lastSetResultSplit rest with
            | some (pre, sr) => some (c :: pre, sr)
            | none => if c.tool = "set_result" then some ([], c) else none) = _
      rw [ih]
      cases hdrop : rest.reverse.dropWhile (fun c => c.tool ≠ "set_result") with
      | nil =>
          simp only [List.reverse_cons, List.dropWhile_append, hdrop, List.isEmpty_nil,
            if_true, List.dropWhile]
          by_cases hc : c.tool = "set_result"
          · simp [hc]
          · simp [hc]
      | cons sr restRev =>
          rw [List.reverse_cons, List.dropWhile_append, hdrop]
          simp

/-- C6 (amended): on a cache hit the generated combined code filters the
transcript's calls to those with Ok results, inlines the code of every Ok
eval call that PRECEDES the last Ok set_result, in recorded order, then
the code of that last Ok set_result; the whole is a single async function
expression, and the cache-hit path runs it through the evaluator's
set_result path, returning its value when that single invocation
succeeds (Ok eval calls recorded after the last Ok set_result are not
replayed). -/
theorem c6_combined_replay_amended :
    (∀ calls : List TCall, generateCombinedCode calls = generateCombinedCodeAmended calls)
    ∧ (∀ (t : CachedTranscript) (exec : String → Except String JVal)
        (live : Except String JVal) (c : String),
        t.success = true → generateCombinedCode t.calls = .ok c →
        implementCached (some t) exec live =
          (match exec c with | .ok v => .ok v | .error _ => live)) := by
  constructor
  · intro calls
    unfold generateCombinedCode generateCombinedCodeAmended
    by_cases hemp : calls.filter isOkCall = []
    · simp [hemp]
    · simp only [hemp, if_neg, if_false]
      rw [lastSetResultSplit_reverse]
      cases hdrop : (calls.filter isOkCall).reverse.dropWhile (fun c => c.tool ≠ "set_result") with
      | nil => simp [hemp]
      | cons sr restRev => simp [hemp]
  · intro t exec live c ht hc
    simp only [implementCached, loadFiltered, ht, if_true, hc]

/-- C6 (counterexample): on the transcript [set_result Ok, eval Ok] the
source inlines no eval code at all (only evals before the last Ok
set_result are replayed), while the claim's reading — every recorded Ok
eval call — would inline the trailing eval. -/
theorem c6_combined_replay_counterexample :
    generateCombinedCode callsEvalAfter ≠ generateCombinedCodeSpec callsEvalAfter := by
  decide

/-- C5 (amended): when a success=true cached transcript yields combined
code, a throw from the single replaying set_result invocation is swallowed
and the caller gets the live-path outcome computed with a freshly built
evaluator (never the replay error); but when the transcript admits no
combined code at all (no Ok call, or no Ok set_result), the generator's
exception is raised outside the guarded replay call and reaches the
caller. -/
theorem c5_replay_fallback_amended :
    ∀ (t : CachedTranscript) (exec : String → Except String JVal) (live : Except String JVal),
      t.success = true →
      ((∀ c m, generateCombinedCode t.calls = .ok c → exec c = .error m →
          implementCached (some t) exec live = live)
       ∧ (∀ e, generateCombinedCode t.calls = .error e →
          implementCached (some t) exec live = .error e)) := by
  intro t exec live ht
  constructor
  · intro c m hc hexec
    simp only [implementCached, loadFiltered, ht, if_true, hc, hexec]
  · intro e he
    simp only [implementCached, loadFiltered, ht, if_true, he]

/-- C5 (counterexample): replaying the success=true transcript with an
empty call list fails in generateCombinedCode, outside the guarded replay
invocation; the caller observes that error instead of the live result. -/
theorem c5_replay_fallback_counterexample :
    implementCached (some emptySuccessTranscript)
        (fun _ => .ok (.num 0)) (.ok (.num 7)) = .error "No successful calls in transcript"
      ∧ (Except.error "No successful calls in transcript" ≠
          (Except.ok (JVal.num 7) : Except String JVal)) := by
  exact ⟨rfl, fun h => Except.noConfusion h⟩

/-- C5 (witness for the amended theorem): with a one-call success
transcript and a replay executor that throws, the caller receives the live
outcome. -/
theorem c5_replay_fallback_witness :
    implementCached (some { success := true, calls := [{ tool := "set_result", code := "async () => (\x7b n: 1 \x7d)", resultError := some false }] })
        (fun _ => .error "boom") (.ok (.num 5)) = .ok (.num 5) := by
  have h := (c5_replay_fallback_amended
    { success := true, calls := [{ tool := "set_result", code := "async () => (\x7b n: 1 \x7d)", resultError := some false }] }
    (fun _ => .error "boom") (.ok (.num 5)) rfl).1
    (combineCode [] "async () => (\x7b n: 1 \x7d)") "boom" (by decide) rfl
  exact h

/-- C6 (witness for the amended theorem): on a concrete transcript whose
combined code the replay executor accepts, the cache-hit path returns the
replayed value. -/
theorem c6_combined_replay_witness :
    implementCached (some { success := true, calls := callsEvalAfter })
        (fun _ => .ok (.num 3)) (.error "live not reached") = .ok (.num 3) := by
  have h := c6_combined_replay_amended.2
    { success := true, calls := callsEvalAfter }
    (fun _ => .ok (.num 3)) (.error "live not reached")
    (combineCode [] "async () => (1)") rfl (by decide)
  exact h

/-! ### Evaluator and tool-surface lemmas -/

theorem vmEval_completion (cfg : VmCfg) (c : Code) (s : VmState) :
    ((vmEval cfg c s).2).completion = s.completion := by
  simp only [vmEval]
  cases (execCode true cfg.context c s.vars []).result <;> rfl

theorem vmEval_srGlobals (cfg : VmCfg) (c : Code) (s : VmState) :
    ((vmEval cfg c s).2).srGlobals = s.srGlobals := by
  simp only [vmEval]
  cases (execCode true cfg.context c s.vars []).result <;> rfl

theorem vmSetResult_cases (cfg : VmCfg) (c : Code) (s : VmState) :
    (∃ m, (vmSetResult cfg c s).1 = .error m
          ∧ (vmSetResult cfg c s).2.completion = s.completion)
    ∨ (∃ v, (vmSetResult cfg c s).1 = .ok v
          ∧ (vmSetResult cfg c s).2.completion = resolveP s.completion v) := by
  cases hres : (execCode false cfg.context c s.vars s.srGlobals).result with
  | error m =>
      exact Or.inl ⟨m, by simp [vmSetResult, hres], by simp [vmSetResult, hres]⟩
  | ok v =>
      cases hsc : cfg.schemaCheck v with
      | error issues =>
          exact Or.inl ⟨"Validation failed: " ++ issues,
            by simp [vmSetResult, hres, hsc], by simp [vmSetResult, hres, hsc]⟩
      | ok u =>
          cases hval : cfg.validate with
          | none =>
              exact Or.inr ⟨v, by simp [vmSetResult, hres, hsc, hval],
                by simp [vmSetResult, hres, hsc, hval]⟩
          | some f =>
              cases hfv : f v with
              | error m =>
                  exact Or.inl ⟨m, by simp [vmSetResult, hres, hsc, hval, hfv],
                    by simp [vmSetResult, hres, hsc, hval, hfv]⟩
              | ok u2 =>
                  exact Or.inr ⟨v, by simp [vmSetResult, hres, hsc, hval, hfv],
                    by simp [vmSetResult, hres, hsc, hval, hfv]⟩

theorem evalTool_vm (cfg : VmCfg) (c : Code) (s : VmState) :
    (evalTool cfg c s).vm = (vmEval cfg c s).2 := by
  unfold evalTool
  cases h : vmEval cfg c s with
  | mk fst snd => cases fst <;> rfl

theorem setResultTool_vm (cfg : VmCfg) (c : Code) (s : VmState) :
    (setResultTool cfg c s).vm = (vmSetResult cfg c s).2 := by
  unfold setResultTool
  cases h : vmSetResult cfg c s with
  | mk fst snd => cases fst <;> rfl

theorem setResultTool_of_error (cfg : VmCfg) (c : Code) (s : VmState) (m : String)
    (h : (vmSetResult cfg c s).1 = .error m) :
    setResultTool cfg c s =
      { resp := { text := "Error: " ++ m, isError := true }, cbs := [],
        vm := (vmSetResult cfg c s).2, computed := none } := by
  unfold setResultTool
  cases hp : vmSetResult cfg c s with
  | mk fst snd =>
      rw [hp] at h
      simp only at h
      subst h
      rfl

theorem setResultTool_of_ok (cfg : VmCfg) (c : Code) (s : VmState) (v : Val)
    (h : (vmSetResult cfg c s).1 = .ok v) :
    setResultTool cfg c s =
      { resp := { text := "Result computed", isError := false },
        cbs := [("set_result", c, .ok (.resData v))],
        vm := (vmSetResult cfg c s).2, computed := some v } := by
  unfold setResultTool
  cases hp : vmSetResult cfg c s with
  | mk fst snd =>
      rw [hp] at h
      simp only at h
      subst h
      rfl

theorem evalTool_of_error (cfg : VmCfg) (c : Code) (s : VmState) (m : String)
    (h : (vmEval cfg c s).1 = .error m) :
    evalTool cfg c s =
      { resp := { text := "Error: " ++ m, isError := true }, cbs := [],
        vm := (vmEval cfg c s).2, computed := none } := by
  unfold evalTool
  cases hp : vmEval cfg c s with
  | mk fst snd =>
      rw [hp] at h
      simp only at h
      subst h
      rfl

theorem evalTool_of_ok (cfg : VmCfg) (c : Code) (s : VmState) (out : EvalOut)
    (h : (vmEval cfg c s).1 = .ok out) :
    evalTool cfg c s =
      { resp := { text := renderEvalOut out, isError := false },
        cbs := [("eval", c, .ok (.evalData out))],
        vm := (vmEval cfg c s).2, computed := none } := by
  unfold evalTool
  cases hp : vmEval cfg c s with
  | mk fst snd =>
      rw [hp] at h
      simp only at h
      subst h
      rfl

theorem resolveP_settled {α : Type} (p : PromiseState α) (v : α) (h : p ≠ .pending) :
    resolveP p v = p := by
  cases p with
  | pending => exact absurd rfl h
  | fulfilled w => rfl
  | rejected m => rfl

theorem rejectP_settled {α : Type} (p : PromiseState α) (m : String) (h : p ≠ .pending) :
    rejectP p m = p := by
  cases p with
  | pending => exact absurd rfl h
  | fulfilled w => rfl
  | rejected m2 => rfl

theorem orchStep_vm_completion_settled (cfg : VmCfg) (s : OrchSt) (r : AgentReq)
    (h : s.vm.completion ≠ .pending) :
    (orchStep cfg s r).vm.completion = s.vm.completion := by
  cases r with
  | evalR c =>
      show (evalTool cfg c s.vm).vm.completion = s.vm.completion
      rw [evalTool_vm, vmEval_completion]
  | setResultR c =>
      show (setResultTool cfg c s.vm).vm.completion = s.vm.completion
      rw [setResultTool_vm]
      rcases vmSetResult_cases cfg c s.vm with ⟨m, _, hc⟩ | ⟨v, _, hc⟩
      · exact hc
      · rw [hc]
        exact resolveP_settled _ _ h
  | bailR msg =>
      show (vmSetBail msg s.vm).completion = s.vm.completion
      exact rejectP_settled _ _ h

theorem foldl_orchStep_completion_settled (cfg : VmCfg) :
    ∀ (post : List AgentReq) (s : OrchSt), s.vm.completion ≠ .pending →
      (post.foldl (orchStep cfg) s).vm.completion = s.vm.completion
  | [], s, _ => rfl
  | r :: rest, s, h => by
      have h1 := orchStep_vm_completion_settled cfg s r h
      have h2 := foldl_orchStep_completion_settled cfg rest (orchStep cfg s r)
        (by rw [h1]; exact h)
      simp only [List.foldl_cons]
      rw [h2, h1]

theorem setResult_ok_fulfills (cfg : VmCfg) (s : OrchSt) (c : Code) (v : Val)
    (hp : s.vm.completion = .pending)
    (hok : (vmSetResult cfg c s.vm).1 = .ok v) :
    (orchStep cfg s (.setResultR c)).vm.completion = .fulfilled v := by
  show (setResultTool cfg c s.vm).vm.completion = _
  rw [setResultTool_vm]
  rcases vmSetResult_cases cfg c s.vm with ⟨m, hm, _⟩ | ⟨w, hw, hc⟩
  · rw [hok] at hm
    exact Except.noConfusion hm
  · rw [hok] at hw
    cases hw
    rw [hc, hp]
    rfl

/-! ### Claim C1: completion-promise lifecycle -/

/-- C1 (counterexample): when the agent's message stream ends without any
tool call (a clean exit with no set_result and no bail), the in-process
implement leaves the completion promise pending — the caller's promise
never settles, and in particular it is not rejected with an "agent exited
without completion" failure (no such failure exists in the code). -/
theorem c1_lifecycle_counterexample :
    implementLive cfg0 [] = PromiseState.pending
    ∧ (PromiseState.pending : PromiseState Val) ≠
        PromiseState.rejected "agent exited without completion" := by
  exact ⟨rfl, by decide⟩

/-- C1 (amended): the completion promise settles at most once — once
settled, later tool invocations leave it unchanged; while pending, a
successful set_result fulfills it with the validated value and bail
rejects it with the prefixed message.  A failsafe exists only in the UDS
variant and only for a nonzero agent exit code, rejecting with
"Agent could not complete the task: CLI process exited with code N"; when
the agent exits cleanly (or in the in-process variant at all) without the
promise having settled, the promise simply remains pending and the caller
never observes an outcome. -/
theorem c1_lifecycle_amended :
    (∀ (cfg : VmCfg) (pre post : List AgentReq),
        (runOrch cfg pre).vm.completion ≠ .pending →
        implementLive cfg (pre ++ post) = implementLive cfg pre)
    ∧ (∀ (cfg : VmCfg) (s : OrchSt) (c : Code) (v : Val),
        s.vm.completion = .pending →
        (vmSetResult cfg c s.vm).1 = .ok v →
        (orchStep cfg s (.setResultR c)).vm.completion = .fulfilled v)
    ∧ (∀ (cfg : VmCfg) (s : OrchSt) (msg : String),
        s.vm.completion = .pending →
        (orchStep cfg s (.bailR msg)).vm.completion =
          .rejected ("Agent could not complete the task: " ++ msg))
    ∧ (∀ (cfg : VmCfg) (reqs : List AgentReq) (n : Int),
        n ≠ 0 →
        (reqs.foldl (udsStep cfg) initVmState).completion = .pending →
        implementUds cfg reqs n =
          .rejected ("Agent could not complete the task: CLI process exited with code "
            ++ toString n))
    ∧ (∀ (cfg : VmCfg) (reqs : List AgentReq),
        (runOrch cfg reqs).vm.completion = .pending →
        implementLive cfg reqs = .pending)
    ∧ (∀ (cfg : VmCfg) (reqs : List AgentReq),
        (reqs.foldl (udsStep cfg) initVmState).completion = .pending →
        implementUds cfg reqs 0 = .pending) := by
  refine ⟨?_, ?_, ?_, ?_, ?_, ?_⟩
  · intro cfg pre post h
    show (runOrch cfg (pre ++ post)).vm.completion = (runOrch cfg pre).vm.completion
    unfold runOrch
    rw [List.foldl_append]
    exact foldl_orchStep_completion_settled cfg post _ h
  · intro cfg s c v hp hok
    exact setResult_ok_fulfills cfg s c v hp hok
  · intro cfg s msg hp
    show (vmSetBail msg s.vm).completion = _
    unfold vmSetBail
    rw [hp]
    rfl
  · intro cfg reqs n hn hp
    simp only [implementUds]
    rw [if_pos hn]
    show rejectP (reqs.foldl (udsStep cfg) initVmState).completion _ = _
    rw [hp]
    rfl
  · intro cfg reqs h
    exact h
  · intro cfg reqs h
    simp only [implementUds]
    rw [if_neg (by decide : ¬ ((0 : Int) ≠ 0))]
    exact h

/-- C1 (witness for the amended theorem): with no tool calls and exit
code 1, the UDS failsafe rejects with the CLI-exit message. -/
theorem c1_lifecycle_witness :
    implementUds cfg0 [] 1 =
      PromiseState.rejected
        ("Agent could not complete the task: CLI process exited with code " ++ toString (1 : Int)) := by
  exact c1_lifecycle_amended.2.2.2.1 cfg0 [] 1 (by decide) rfl

/-! ### Claim C2: failing set_result -/

/-- C2 (counterexample): on the schema n ≥ 0, the call
set_result(async () => (\x7b n: -1 \x7d)) fails validation, yet nothing is
appended to the transcript — the onToolCall callback is skipped on the
error path, so no Err entry is recorded (the failure is only returned to
the agent flagged isError). -/
theorem c2_failing_set_result_counterexample :
    (runOrch cfgPos [.setResultR codeNegOne]).transcript = []
    ∧ (setResultTool cfgPos codeNegOne initVmState).resp.isError = true := by
  exact ⟨rfl, rfl⟩

/-- C2 (amended): a set_result call whose code throws or whose value fails
schema validation returns the error to the agent flagged isError and does
NOT settle the completion promise, and a later set_result call with a
valid value still resolves it — but the failing call is not recorded in
the transcript at all (the in-process tool surface skips the onToolCall
callback on the error path, so no Err entry is appended). -/
theorem c2_failing_set_result_amended :
    ∀ (cfg : VmCfg) (s : OrchSt) (c : Code) (m : String),
      (vmSetResult cfg c s.vm).1 = .error m →
      ((orchStep cfg s (.setResultR c)).transcript = s.transcript
       ∧ (setResultTool cfg c s.vm).resp = { text := "Error: " ++ m, isError := true }
       ∧ (orchStep cfg s (.setResultR c)).vm.completion = s.vm.completion
       ∧ (∀ (c2 : Code) (v : Val), s.vm.completion = .pending →
           (vmSetResult cfg c2 (orchStep cfg s (.setResultR c)).vm).1 = .ok v →
           (orchStep cfg (orchStep cfg s (.setResultR c)) (.setResultR c2)).vm.completion =
             .fulfilled v)) := by
  intro cfg s c m h
  have htool := setResultTool_of_error cfg c s.vm m h
  have hcomp : (orchStep cfg s (.setResultR c)).vm.completion = s.vm.completion := by
    show (setResultTool cfg c s.vm).vm.completion = s.vm.completion
    rw [setResultTool_vm]
    rcases vmSetResult_cases cfg c s.vm with ⟨m2, _, hc⟩ | ⟨v, hv, _⟩
    · exact hc
    · rw [h] at hv
      exact Except.noConfusion hv
  refine ⟨?_, ?_, hcomp, ?_⟩
  · show s.transcript ++ (setResultTool cfg c s.vm).cbs = s.transcript
    rw [htool]
    exact List.append_nil s.transcript
  · rw [htool]
  · intro c2 v hp hok
    exact setResult_ok_fulfills cfg (orchStep cfg s (.setResultR c)) c2 v
      (by rw [hcomp]; exact hp) hok

/-- C2 (witness for the amended theorem): the invalid \x7b n: -1 \x7d is
rejected without settling the promise, and the retry with \x7b n: 1 \x7d
fulfills the promise with 1. -/
theorem c2_failing_set_result_witness :
    (orchStep cfgPos (orchStep cfgPos initOrchSt (.setResultR codeNegOne))
        (.setResultR codeOne)).vm.completion = .fulfilled (.num 1) := by
  have h := c2_failing_set_result_amended cfgPos initOrchSt codeNegOne
    "Validation failed: n: Number must be greater than or equal to 0" (by decide)
  exact h.2.2.2 codeOne (.num 1) rfl (by decide)

/-! ### Claim C3: caller-supplied validator -/

/-- C3: when the caller supplies a validate option, a set_result whose
code evaluates cleanly and passes schema validation then has the
caller-supplied validator invoked on the value: a throw from the
validator makes the set_result call fail with that error and leaves the
completion promise untouched (the promise is not resolved with the
value), while an accepting validator lets set_result resolve the promise
with the value. -/
theorem c3_caller_validator :
    ∀ (ctx : Env) (sc : Val → Except String Unit) (f : Val → Except String Unit)
      (c : Code) (s : VmState) (v : Val),
      (execCode false ctx c s.vars s.srGlobals).result = .ok v →
      sc v = .ok () →
      ((∀ m, f v = .error m →
          (vmSetResult { context := ctx, schemaCheck := sc, validate := some f } c s).1 = .error m
          ∧ (vmSetResult { context := ctx, schemaCheck := sc, validate := some f } c s).2.completion
              = s.completion)
       ∧ (f v = .ok () →
          (vmSetResult { context := ctx, schemaCheck := sc, validate := some f } c s).1 = .ok v
          ∧ (vmSetResult { context := ctx, schemaCheck := sc, validate := some f } c s).2.completion
              = resolveP s.completion v)) := by
  intro ctx sc f c s v hex hsc
  constructor
  · intro m hm
    constructor <;> simp [vmSetResult, hex, hsc, hm]
  · intro hok
    constructor <;> simp [vmSetResult, hex, hsc, hok]

/-- C3 (witness): a validator that always throws makes a schema-valid
set_result fail without settling the promise. -/
theorem c3_caller_validator_witness :
    (vmSetResult cfgValReject codeOne initVmState).1 = .error "validator rejected"
    ∧ (vmSetResult cfgValReject codeOne initVmState).2.completion = initVmState.completion := by
  have h := c3_caller_validator [] (fun _ => .ok ()) (fun _ => .error "validator rejected")
    codeOne initVmState (.num 1) rfl rfl
  exact h.1 "validator rejected" rfl

/-! ### Claim C4: the onToolCall callback -/

/-- C4 (counterexample): the bail tool never invokes the onToolCall
callback — zero invocations, not exactly one. -/
theorem c4_callback_counterexample :
    (bailTool "cannot satisfy impossible constraint" initVmState).cbs = []
    ∧ (bailTool "cannot satisfy impossible constraint" initVmState).cbs.length ≠ 1 := by
  exact ⟨rfl, by decide⟩

/-- C4 (amended): the in-process tool surface invokes the onToolCall
callback exactly once with (tool, code, ToolResult) before returning —
but only on eval and set_result invocations whose executor call
succeeds; when the executor call throws, the error response is returned
without any callback invocation, and the bail tool never invokes the
callback at all. -/
theorem c4_callback_amended :
    ∀ (cfg : VmCfg) (c : Code) (s : VmState),
      (∀ out s2, vmEval cfg c s = (.ok out, s2) →
          (evalTool cfg c s).cbs = [("eval", c, .ok (.evalData out))])
      ∧ (∀ m s2, vmEval cfg c s = (.error m, s2) → (evalTool cfg c s).cbs = [])
      ∧ (∀ v s2, vmSetResult cfg c s = (.ok v, s2) →
          (setResultTool cfg c s).cbs = [("set_result", c, .ok (.resData v))])
      ∧ (∀ m s2, vmSetResult cfg c s = (.error m, s2) → (setResultTool cfg c s).cbs = [])
      ∧ (∀ msg, (bailTool msg s).cbs = []) := by
  intro cfg c s
  refine ⟨?_, ?_, ?_, ?_, fun msg => rfl⟩
  · intro out s2 h
    rw [evalTool_of_ok cfg c s out (by rw [h])]
  · intro m s2 h
    rw [evalTool_of_error cfg c s m (by rw [h])]
  · intro v s2 h
    rw [setResultTool_of_ok cfg c s v (by rw [h])]
  · intro m s2 h
    rw [setResultTool_of_error cfg c s m (by rw [h])]

/-- C4 (witness for the amended theorem): a successful eval records
exactly one callback invocation with the Ok result. -/
theorem c4_callback_witness :
    (evalTool cfg0 codeOne initVmState).cbs =
      [("eval", codeOne, .ok (.evalData { result := .num 1, console := [] }))] := by
  exact (c4_callback_amended cfg0 codeOne initVmState).1
    { result := .num 1, console := [] } initVmState (by decide)

/-! ### Claim C9: state persistence and VM-context isolation -/

theorem vmSetResult_vars (cfg : VmCfg) (c : Code) (s : VmState) :
    ((vmSetResult cfg c s).2).vars = (execCode false cfg.context c s.vars s.srGlobals).vars := by
  cases hres : (execCode false cfg.context c s.vars s.srGlobals).result with
  | error m => simp [vmSetResult, hres]
  | ok v =>
      cases hsc : cfg.schemaCheck v with
      | error issues => simp [vmSetResult, hres, hsc]
      | ok u =>
          cases hval : cfg.validate with
          | none => simp [vmSetResult, hres, hsc, hval]
          | some f =>
              cases hfv : f v with
              | error m => simp [vmSetResult, hres, hsc, hval, hfv]
              | ok u2 => simp [vmSetResult, hres, hsc, hval, hfv]

theorem vmEval_vars (cfg : VmCfg) (c : Code) (s : VmState) :
    ((vmEval cfg c s).2).vars = (execCode true cfg.context c s.vars []).vars := by
  simp only [vmEval]
  cases (execCode true cfg.context c s.vars []).result <;> rfl

theorem traceStep_varsIn (cfg : VmCfg) (vm : VmState) (kc : CallKind × Code) :
    (traceStep cfg vm kc).1.varsIn = vm.vars := by
  obtain ⟨k, c⟩ := kc
  cases k <;> rfl

theorem traceStep_srIn (cfg : VmCfg) (vm : VmState) (kc : CallKind × Code) :
    (traceStep cfg vm kc).1.srIn = vm.srGlobals := by
  obtain ⟨k, c⟩ := kc
  cases k <;> rfl

theorem traceStep_varsOut (cfg : VmCfg) (vm : VmState) (kc : CallKind × Code) :
    (traceStep cfg vm kc).1.varsOut = (traceStep cfg vm kc).2.vars := by
  obtain ⟨k, c⟩ := kc
  cases k <;> rfl

theorem traceStep_srOut (cfg : VmCfg) (vm : VmState) (kc : CallKind × Code) :
    (traceStep cfg vm kc).1.srOut = (traceStep cfg vm kc).2.srGlobals := by
  obtain ⟨k, c⟩ := kc
  cases k <;> rfl

/-- C9: within one request, state persists between executor calls only
through the shared objects.  In every call trace, (i) each eval call
executes against a freshly created VM context with no bindings (so a
binding created by a previous call's code in its own VM-context scope is
never visible to a later eval), (ii) an eval call leaves the persistent
set_result context untouched (so such bindings are not visible to a later
set_result either), while (iii) the vars object is threaded through every
call: each call starts from exactly the vars the previous call ended with,
so vars assignments are visible to every subsequent call, and likewise the
persistent set_result context is threaded through the calls. -/
theorem c9_scope_isolation :
    ∀ (cfg : VmCfg) (cs : List (CallKind × Code)) (vm : VmState),
      (∀ r ∈ runTrace cfg cs vm, r.kind = .evalC → (r.globalsIn = [] ∧ r.srOut = r.srIn))
      ∧ varsChained vm.vars (runTrace cfg cs vm)
      ∧ srChained vm.srGlobals (runTrace cfg cs vm) := by
  intro cfg cs
  induction cs with
  | nil =>
      intro vm
      refine ⟨?_, trivial, trivial⟩
      intro r hr
      simp [runTrace] at hr
  | cons kc rest ih =>
      intro vm
      obtain ⟨k, c⟩ := kc
      cases k with
      | evalC =>
          have hsr : ((vmEval cfg c vm).2).srGlobals = vm.srGlobals := vmEval_srGlobals cfg c vm
          refine ⟨?_, ?_, ?_⟩
          · intro r hr hk
            simp only [runTrace, traceStep] at hr
            rcases List.mem_cons.mp hr with hr | hr
            · subst hr
              exact ⟨rfl, hsr⟩
            · exact (ih ((vmEval cfg c vm).2)).1 r hr hk
          · exact ⟨rfl, (ih ((vmEval cfg c vm).2)).2.1⟩
          · refine ⟨rfl, ?_⟩
            show srChained ((vmEval cfg c vm).2).srGlobals _
            exact (ih ((vmEval cfg c vm).2)).2.2
      | setResC =>
          refine ⟨?_, ?_, ?_⟩
          · intro r hr hk
            simp only [runTrace, traceStep] at hr
            rcases List.mem_cons.mp hr with hr | hr
            · subst hr
              exact CallKind.noConfusion hk
            · exact (ih ((vmSetResult cfg c vm).2)).1 r hr hk
          · exact ⟨rfl, (ih ((vmSetResult cfg c vm).2)).2.1⟩
          · refine ⟨rfl, ?_⟩
            show srChained ((vmSetResult cfg c vm).2).srGlobals _
            exact (ih ((vmSetResult cfg c vm).2)).2.2

/-- C9 (witness): on a concrete trace — an eval writing vars.x followed by
a set_result — the vars object is chained through the calls. -/
theorem c9_scope_isolation_witness :
    varsChained initVmState.vars (runTrace cfg0 csSample initVmState)
    ∧ srChained initVmState.srGlobals (runTrace cfg0 csSample initVmState) := by
  exact ⟨(c9_scope_isolation cfg0 csSample initVmState).2.1,
    (c9_scope_isolation cfg0 csSample initVmState).2.2⟩

/-! ### Claim C10: console availability in set_result -/

theorem runStmt_unbound_logs (ctx : Env) (st : RunSt) (s : Stmt) (st2 : RunSt)
    (h : runStmt false ctx st s = .ok st2) : st2.logs = st.logs := by
  cases s with
  | varWrite k e =>
      cases he : evalExpr ctx st e with
      | ok v => simp [runStmt, he] at h; rw [← h]
      | error m => simp [runStmt, he] at h
  | globalWrite k e =>
      cases he : evalExpr ctx st e with
      | ok v => simp [runStmt, he] at h; rw [← h]
      | error m => simp [runStmt, he] at h
  | consoleCall level e => simp [runStmt] at h
  | exprStmt e =>
      cases he : evalExpr ctx st e with
      | ok v => simp [runStmt, he] at h; rw [← h]
      | error m => simp [runStmt, he] at h

theorem runStmts_unbound_logs (ctx : Env) :
    ∀ (stmts : List Stmt) (st : RunSt), ((runStmts false ctx stmts st).1).logs = st.logs
  | [], st => rfl
  | s :: rest, st => by
      cases hs : runStmt false ctx st s with
      | ok st2 =>
          simp only [runStmts, hs]
          rw [runStmts_unbound_logs ctx rest st2, runStmt_unbound_logs ctx st s st2 hs]
      | error m => simp [runStmts, hs]

theorem runStmts_unbound_console_err (ctx : Env) :
    ∀ (stmts : List Stmt) (st : RunSt), stmts.any isConsoleStmt = true →
      ((runStmts false ctx stmts st).2).isSome = true
  | [], st, h => by simp at h
  | s :: rest, st, h => by
      cases s with
      | consoleCall level e => simp [runStmts, runStmt]
      | varWrite k e =>
          cases hs : runStmt false ctx st (.varWrite k e) with
          | ok st2 =>
              simp only [runStmts, hs]
              exact runStmts_unbound_console_err ctx rest st2 (by simpa [isConsoleStmt] using h)
          | error m => simp [runStmts, hs]
      | globalWrite k e =>
          cases hs : runStmt false ctx st (.globalWrite k e) with
          | ok st2 =>
              simp only [runStmts, hs]
              exact runStmts_unbound_console_err ctx rest st2 (by simpa [isConsoleStmt] using h)
          | error m => simp [runStmts, hs]
      | exprStmt e =>
          cases hs : runStmt false ctx st (.exprStmt e) with
          | ok st2 =>
              simp only [runStmts, hs]
              exact runStmts_unbound_console_err ctx rest st2 (by simpa [isConsoleStmt] using h)
          | error m => simp [runStmts, hs]

theorem execCode_unbound_err (ctx : Env) (c : Code) (vars globals : Env)
    (h : usesConsole c = true) :
    exceptIsError (execCode false ctx c vars globals).result = true := by
  have herr := runStmts_unbound_console_err ctx c.body
    { vars := vars, globals := globals, logs := [] } h
  unfold execCode
  cases hr : (runStmts false ctx c.body { vars := vars, globals := globals, logs := [] }).2 with
  | none => rw [hr] at herr; simp at herr
  | some m => simp [hr, exceptIsError]

/-- C10: the capturing console shim is installed only in the per-call
scope given to eval; set_result code runs against the persistent context
binding only context, vars and globalThis, so every set_result whose code
references the bare identifier console fails (the in-process surface
returns the error to the agent flagged isError, retryable) and leaves the
completion promise untouched — and no console output is ever captured on
the set_result path (for any code, its execution there logs nothing). -/
theorem c10_console_unavailable :
    (∀ (cfg : VmCfg) (c : Code) (s : VmState), usesConsole c = true →
        (exceptIsError (vmSetResult cfg c s).1 = true
         ∧ (vmSetResult cfg c s).2.completion = s.completion
         ∧ (setResultTool cfg c s).resp.isError = true))
    ∧ (∀ (cfg : VmCfg) (c : Code) (s : VmState),
        (execCode false cfg.context c s.vars s.srGlobals).logs = []) := by
  constructor
  · intro cfg c s h
    have herr := execCode_unbound_err cfg.context c s.vars s.srGlobals h
    cases hres : (execCode false cfg.context c s.vars s.srGlobals).result with
    | ok v => rw [hres] at herr; simp [exceptIsError] at herr
    | error m =>
        have h1 : (vmSetResult cfg c s).1 = .error m := by simp [vmSetResult, hres]
        have h2 : (vmSetResult cfg c s).2.completion = s.completion := by
          simp [vmSetResult, hres]
        refine ⟨by rw [h1]; rfl, h2, ?_⟩
        rw [setResultTool_of_error cfg c s m h1]
  · intro cfg c s
    unfold execCode
    cases hr : (runStmts false cfg.context c.body
        { vars := s.vars, globals := s.srGlobals, logs := [] }).2 with
    | none =>
        cases hret : evalExpr cfg.context
            (runStmts false cfg.context c.body
              { vars := s.vars, globals := s.srGlobals, logs := [] }).1 c.ret with
        | ok v => simp [hr, hret, runStmts_unbound_logs]
        | error m => simp [hr, hret, runStmts_unbound_logs]
    | some m => simp [hr, runStmts_unbound_logs]

/-- C10 (witness): the concrete code console.log("hi") fails on the
set_result path with the promise untouched. -/
theorem c10_console_unavailable_witness :
    exceptIsError (vmSetResult cfg0 codeConsole initVmState).1 = true
    ∧ (vmSetResult cfg0 codeConsole initVmState).2.completion = initVmState.completion := by
  have h := c10_console_unavailable.1 cfg0 codeConsole initVmState rfl
  exact ⟨h.1, h.2.1⟩

end Klendathu
